import Mathlib

/-!
Shallow embedding of `ingest_pmms.py`: the incremental PMMS-rate ingestion
pipeline (row parsing, recency filter, idempotent batch insert, resource
release).  Python strings are Lean `String`s; Python `None`-able CSV cell
values are `Option String`; SQLite rows are `RateRecord`s and the table is a
`List RateRecord` keyed by `date`.
-/

namespace Pmms

/-- The whitespace characters stripped by Python `str.strip()` (ASCII part;
unicode spaces are not modelled, none occur in the data). -/
def isPySpace (c : Char) : Bool :=
  c = ' ' || c = '\t' || c = '\n' || c = '\r' || c = '\x0b' || c = '\x0c'

/-- Python `str.strip()` on the character list. -/
def stripChars (l : List Char) : List Char :=
  ((l.dropWhile isPySpace).reverse.dropWhile isPySpace).reverse

/-- Python `str.strip()`. -/
def pyStrip (s : String) : String :=
  ⟨stripChars s.data⟩

/-- Python `str.lower()` (ASCII letters; full-unicode lowering not modelled). -/
def pyLower (s : String) : String :=
  ⟨s.data.map Char.toLower⟩

/-- Key normalisation `k.strip().lower()` of `parse_row` (line 224). -/
def pyNormKey (s : String) : String :=
  pyLower (pyStrip s)

/-- Decimal value of a digit list. -/
def digitsToNat (l : List Char) : Nat :=
  l.foldl (fun a c => a * 10 + (c.toNat - 48)) 0

/-- Split a character list on a separator character (like the field layout a
`strptime` format string imposes). -/
def splitOnChar (sep : Char) : List Char → List Char → List (List Char)
  | [], acc => [acc.reverse]
  | c :: rest, acc =>
    if c = sep then acc.reverse :: splitOnChar sep rest []
    else splitOnChar sep rest (c :: acc)

/-- CPython `_strptime` field `%Y`: exactly four digits. -/
def yearField (l : List Char) : Option Nat :=
  if l.length = 4 && l.all Char.isDigit then some (digitsToNat l) else none

/-- CPython `_strptime` fields `%m` / `%d`: one or two digits, value between
1 and `hi` (12 for months, 31 for days). -/
def numField (hi : Nat) (l : List Char) : Option Nat :=
  if (l.length = 1 || l.length = 2) && l.all Char.isDigit then
    let n := digitsToNat l
    if 1 ≤ n && n ≤ hi then some n else none
  else none

/-- Gregorian leap year, as `datetime` uses. -/
def isLeap (y : Nat) : Bool :=
  (y % 4 = 0 && !(y % 100 = 0)) || y % 400 = 0

/-- Days in a month, as `datetime` validates. -/
def daysInMonth (y m : Nat) : Nat :=
  if m = 2 then (if isLeap y then 29 else 28)
  else if m = 4 || m = 6 || m = 9 || m = 11 then 30
  else 31

/-- The `datetime(year, month, day)` constructor check: `MINYEAR ≤ year` and
the day fits the month. -/
def mkValidDate (y m d : Nat) : Option (Nat × Nat × Nat) :=
  if 1 ≤ y && d ≤ daysInMonth y m then some (y, m, d) else none

/-- Model of `datetime.strptime(s, "%Y-%m-%d")` (line 238): year, dash, month, dash,
day, whole string consumed, then calendar validity. -/
def strptimeYMD (s : String) : Option (Nat × Nat × Nat) :=
  match splitOnChar '-' s.data [] with
  | [ys, ms, ds] =>
    match yearField ys, numField 12 ms, numField 31 ds with
    | some y, some m, some d => mkValidDate y m d
    | _, _, _ => none
  | _ => none

/-- Model of `datetime.strptime(s, "%m/%d/%Y")` (line 241). -/
def strptimeMDY (s : String) : Option (Nat × Nat × Nat) :=
  match splitOnChar '/' s.data [] with
  | [ms, ds, ys] =>
    match yearField ys, numField 12 ms, numField 31 ds with
    | some y, some m, some d => mkValidDate y m d
    | _, _, _ => none
  | _ => none

/-- Zero-pad a digit list on the left to width `w`. -/
def padZero (w : Nat) (l : List Char) : List Char :=
  List.replicate (w - l.length) '0' ++ l

/-- Model of `dt_obj.strftime("%Y-%m-%d")` (line 247): zero-padded decimal fields
joined by dashes. -/
def fmtYMD : Nat × Nat × Nat → String
  | (y, m, d) =>
    ⟨padZero 4 (Nat.toDigits 10 y) ++
      '-' :: (padZero 2 (Nat.toDigits 10 m) ++ '-' :: padZero 2 (Nat.toDigits 10 d))⟩

/-- Lines 236-247 of `parse_row`: try ISO `%Y-%m-%d`, then US `%m/%d/%Y`;
the first format that succeeds wins and the result is reformatted to
canonical `YYYY-MM-DD`. -/
def parse_date (s : String) : Option String :=
  match strptimeYMD s with
  | some t => some (fmtYMD t)
  | none =>
    match strptimeMDY s with
    | some t => some (fmtYMD t)
    | none => none

/-- Split `sign? digits ('.' digits?)?` into integer digits, fraction digits
and the remainder of the input. -/
def mantissaSplit (l : List Char) : List Char × List Char × List Char :=
  let p := l.span Char.isDigit
  match p.2 with
  | '.' :: rr =>
    let q := rr.span Char.isDigit
    (p.1, q.1, q.2)
  | _ => (p.1, [], p.2)

/-- Optional exponent tail `(e|E) sign? digits` of a float literal. -/
def expTail : List Char → Option Int
  | [] => some 0
  | c :: rest =>
    if c = 'e' || c = 'E' then
      match rest with
      | '+' :: ds =>
        if ds.length ≠ 0 && ds.all Char.isDigit then some (digitsToNat ds) else none
      | '-' :: ds =>
        if ds.length ≠ 0 && ds.all Char.isDigit then some (-(digitsToNat ds : Int)) else none
      | ds =>
        if ds.length ≠ 0 && ds.all Char.isDigit then some (digitsToNat ds) else none
    else none

/-- Python `float(s)` on finite decimal literals (line 256/263): optional
surrounding whitespace, optional sign, decimal mantissa, optional exponent.
(`inf`/`nan`, hex floats and digit underscores are not modelled; binary
rounding is ignored — the value is kept exactly as a pair of signed mantissa
and decimal exponent, denoting mantissa × 10 ^ exponent; no claim depends on
rounded values.)  Returns `none` exactly when `float` raises. -/
def pyFloat (s : String) : Option (Int × Int) :=
  let l0 := stripChars s.data
  let sl : Int × List Char :=
    match l0 with
    | '+' :: r => (1, r)
    | '-' :: r => (-1, r)
    | r => (1, r)
  let parts := mantissaSplit sl.2
  if parts.1.length = 0 && parts.2.1.length = 0 then none
  else
    match expTail parts.2.2 with
    | none => none
    | some e =>
      some (sl.1 * ((digitsToNat parts.1 : Int) * 10 ^ parts.2.1.length
              + (digitsToNat parts.2.1 : Int)),
            e - (parts.2.1.length : Int))

/-- A raw CSV row as `csv.DictReader` hands it to `parse_row`: association
list of column name to cell value; a value of `none` models Python `None`
(short row). -/
abbrev Row : Type := List (String × Option String)

/-- The stored record: canonical date string and the two nullable rates
(lines 268-272). -/
structure RateRecord where
  date : String
  pmms30 : Option (Int × Int)
  pmms15 : Option (Int × Int)
deriving DecidableEq, Repr

/-- The dict comprehension of line 224: normalise every key. -/
def normRow (row : Row) : List (String × Option String) :=
  row.map (fun kv => (pyNormKey kv.1, kv.2))

/-- Python dict lookup on an association list built left to right: the LAST
binding of a key wins.  `none` = key absent; `some v` = key present with
value `v` (which may itself be Python `None`). -/
def dictGet (r : List (String × Option String)) (k : String) : Option (Option String) :=
  (r.reverse.find? (fun kv => kv.1 == k)).map (fun kv => kv.2)

/-- Lookup `row.get(k, None)`: absent key and present-`None` both give `None`. -/
def getD (r : List (String × Option String)) (k : String) : Option String :=
  (dictGet r k).join

/-- Python truthiness of a possibly-`None` string: `None` and `""` are falsy. -/
def pyTruthy : Option String → Bool
  | none => false
  | some s => !(s == "")

/-- Python `a or b` on possibly-`None` strings (lines 250-251). -/
def pyOr (a b : Option String) : Option String :=
  if pyTruthy a then a else b

/-- Resolution `row.get('pmms30', None) or row.get('30-yr frm', None)` (line 250),
applied to the already-normalised row. -/
def resolved30 (row : Row) : Option String :=
  pyOr (getD (normRow row) "pmms30") (getD (normRow row) "30-yr frm")

/-- Resolution `row.get('pmms15', None) or row.get('15-yr frm', None)` (line 251). -/
def resolved15 (row : Row) : Option String :=
  pyOr (getD (normRow row) "pmms15") (getD (normRow row) "15-yr frm")

/-- Lines 253-266: a resolved value is converted with `float`; on failure the
field becomes `None`; an unresolved (`None`) value skips conversion. -/
def rateConv : Option String → Option (Int × Int)
  | none => none
  | some s => pyFloat s

/-- The exception a statement inside `parse_row`'s `try` block can raise and
that only the outer `except Exception` catches: `None.strip()` on a `None`
date value (`AttributeError`). -/
inductive PyExc where
  | attrError
deriving DecidableEq, Repr

/-- The body of `parse_row` (lines 222-272) before the outer
`except Exception` handler: it either raises (`Except.error`), rejects the
row (`ok none`), or produces a record (`ok (some rec)`). -/
def parse_row_body (row : Row) : Except PyExc (Option RateRecord) :=
  let r := normRow row
  match dictGet r "date" with
  | none => Except.ok none
  | some none => Except.error PyExc.attrError
  | some (some dv0) =>
    let dv := pyStrip dv0
    if dv == "" then Except.ok none
    else
      match parse_date dv with
      | none => Except.ok none
      | some fd =>
        Except.ok (some { date := fd
                          pmms30 := rateConv (pyOr (getD r "pmms30") (getD r "30-yr frm"))
                          pmms15 := rateConv (pyOr (getD r "pmms15") (getD r "15-yr frm")) })

/-- Function `parse_row` (lines 217-275): the outer handler turns any escaping
exception into a rejection (`None`). -/
def parse_row (row : Row) : Option RateRecord :=
  match parse_row_body row with
  | Except.error _ => none
  | Except.ok v => v

/-- Lexicographic code-point comparison on character lists: exactly Python's
`<` on `str` and, on UTF-8 bytes, SQLite's BINARY collation. -/
def ltChars : List Char → List Char → Bool
  | [], [] => false
  | [], _ :: _ => true
  | _ :: _, [] => false
  | a :: as, b :: bs =>
    if a.toNat < b.toNat then true
    else if b.toNat < a.toNat then false
    else ltChars as bs

/-- Python `a < b` on strings. -/
def strLt (a b : String) : Bool :=
  ltChars a.data b.data

/-- Binary maximum as SQLite's `MAX` aggregates text. -/
def pyMax (a b : String) : String :=
  if strLt a b then b else a

/-- Fold of `pyMax` over a list, seeded with a first element. -/
def maxChain : String → List String → String
  | a, [] => a
  | a, d :: ds => maxChain (pyMax a d) ds

/-- Function `get_latest_date_from_db` (lines 203-215): `SELECT MAX(date)`, then the
Python truthiness fix-up `result[0] if result[0] else None` (an empty-string
maximum also maps to `None`). -/
def get_latest_date_from_db (db : List RateRecord) : Option String :=
  match db.map (fun r => r.date) with
  | [] => none
  | d :: ds =>
    let m := maxChain d ds
    if m == "" then none else some m

/-- The recency filter of line 320:
`last_db_date is None or clean_data['date'] > last_db_date`. -/
def keepRecord (w : Option String) (r : RateRecord) : Bool :=
  match w with
  | none => true
  | some wd => strLt wd r.date

/-- The loop counters and accumulator of `stream_and_ingest`
(lines 286-288). -/
structure StreamStats where
  processed : Nat
  skipped : Nat
  kept : List RateRecord
deriving DecidableEq, Repr

/-- One iteration of the row loop (lines 311-321): count the row, on parse
failure count a skip, otherwise apply the recency filter and append. -/
def stepRow (w : Option String) (st : StreamStats) (row : Row) : StreamStats :=
  match parse_row row with
  | none => { processed := st.processed + 1, skipped := st.skipped + 1, kept := st.kept }
  | some rec =>
    if keepRecord w rec then
      { processed := st.processed + 1, skipped := st.skipped, kept := st.kept ++ [rec] }
    else
      { processed := st.processed + 1, skipped := st.skipped, kept := st.kept }

/-- The whole row loop over the streamed CSV rows. -/
def processRows (w : Option String) (rows : List Row) : StreamStats :=
  rows.foldl (stepRow w) { processed := 0, skipped := 0, kept := [] }

/-- Whether the table already holds a row with this date key. -/
def hasDate (db : List RateRecord) (d : String) : Bool :=
  db.any (fun r => r.date == d)

/-- One `INSERT OR IGNORE` (lines 357-360): a duplicate date key is
silently skipped, otherwise the row is appended. -/
def insertOrIgnore (db : List RateRecord) (r : RateRecord) : List RateRecord :=
  if hasDate db r.date then db else db ++ [r]

/-- The insert loop over `new_records` (lines 356-360). -/
def insertBatch (db : List RateRecord) (recs : List RateRecord) : List RateRecord :=
  recs.foldl insertOrIgnore db

/-- Failure injection for the external collaborators of one run:
`connectOk` = `sqlite3.connect` succeeds, `schemaOk` = `CREATE TABLE IF NOT
EXISTS` succeeds, `latestOk` = the `MAX(date)` query succeeds, `fetch` = the
streamed HTTP/CSV row list or a transport/framing error, `insertFailAt` =
index of the `new_records` entry whose `cursor.execute` raises (if in
range), `commitOk` = `conn.commit()` succeeds. -/
structure Env where
  connectOk : Bool
  schemaOk : Bool
  latestOk : Bool
  fetch : Except Unit (List Row)
  insertFailAt : Option Nat
  commitOk : Bool

/-- The distinguishable fatal-error exits of `stream_and_ingest`. -/
inductive PipeErr where
  | connect
  | schema
  | latest
  | fetchErr
  | insertErr
deriving DecidableEq, Repr

/-- Observable outcome of one run: the surfaced result, the table state
after the run (rollback semantics: unchanged on any error), and whether
`conn.close()` in the `finally` block ran (`'conn' in locals()`). -/
structure RunOut where
  result : Except PipeErr (List RateRecord)
  dbAfter : List RateRecord
  closed : Bool
deriving Repr

/-- Does the execute loop raise while inserting `n` new records? -/
def execFails (fa : Option Nat) (n : Nat) : Bool :=
  match fa with
  | some i => decide (i < n)
  | none => false

/-- Function `stream_and_ingest` (lines 278-376).  If `get_db_connection` raises
(connect or schema creation), `conn` is not a local of `stream_and_ingest`,
so the `finally` block does not close it (`closed := false`).  After a
successful `get_db_connection` every exit path runs `conn.close()`.  An
execute or commit failure triggers `conn.rollback()`, leaving the committed
table unchanged, and re-raises.  An empty `new_records` batch skips the
insert phase entirely. -/
def stream_and_ingest (env : Env) (db : List RateRecord) : RunOut :=
  if !env.connectOk then { result := Except.error PipeErr.connect, dbAfter := db, closed := false }
  else if !env.schemaOk then { result := Except.error PipeErr.schema, dbAfter := db, closed := false }
  else if !env.latestOk then { result := Except.error PipeErr.latest, dbAfter := db, closed := true }
  else
    match env.fetch with
    | Except.error _ => { result := Except.error PipeErr.fetchErr, dbAfter := db, closed := true }
    | Except.ok rows =>
      let w := get_latest_date_from_db db
      let st := processRows w rows
      if st.kept = [] then { result := Except.ok db, dbAfter := db, closed := true }
      else if execFails env.insertFailAt st.kept.length || !env.commitOk then
        { result := Except.error PipeErr.insertErr, dbAfter := db, closed := true }
      else
        { result := Except.ok (insertBatch db st.kept)
          dbAfter := insertBatch db st.kept
          closed := true }

/-- An environment where every external collaborator succeeds and the remote
payload is `rows`. -/
def goodEnv (rows : List Row) : Env :=
  { connectOk := true, schemaOk := true, latestOk := true
    fetch := Except.ok rows, insertFailAt := none, commitOk := true }

/-- The primary-key invariant: no two table rows share a date. -/
def datesNodup (db : List RateRecord) : Prop :=
  (db.map (fun r => r.date)).Nodup

instance (db : List RateRecord) : Decidable (datesNodup db) :=
  List.nodupDecidable _

/-! ### Order facts about the lexicographic comparison -/

lemma ltChars_cons_iff {a b : Char} {as bs : List Char} :
    ltChars (a :: as) (b :: bs) = true ↔
      a.toNat < b.toNat ∨ (a.toNat = b.toNat ∧ ltChars as bs = true) := by
  by_cases h1 : a.toNat < b.toNat
  · simp [ltChars, h1]
  · by_cases h2 : b.toNat < a.toNat
    · simp only [ltChars, if_neg h1, if_pos h2]
      constructor
      · intro h; exact Bool.noConfusion h
      · rintro (h | ⟨he, -⟩) <;> omega
    · have he : a.toNat = b.toNat := by omega
      simp [ltChars, h1, h2, he]

lemma ltChars_irrefl : ∀ l : List Char, ltChars l l = false := by
  intro l
  induction l with
  | nil => rfl
  | cons a as ih => simp [ltChars, ih]

lemma ltChars_trans : ∀ {l₁ l₂ l₃ : List Char},
    ltChars l₁ l₂ = true → ltChars l₂ l₃ = true → ltChars l₁ l₃ = true := by
  intro l₁
  induction l₁ with
  | nil =>
    intro l₂ l₃ h12 h23
    cases l₂ with
    | nil => exact absurd h12 (by simp [ltChars])
    | cons b bs =>
      cases l₃ with
      | nil => exact absurd h23 (by simp [ltChars])
      | cons c cs => rfl
  | cons a as ih =>
    intro l₂ l₃ h12 h23
    cases l₂ with
    | nil => exact absurd h12 (by simp [ltChars])
    | cons b bs =>
      cases l₃ with
      | nil => exact absurd h23 (by simp [ltChars])
      | cons c cs =>
        rw [ltChars_cons_iff] at h12 h23 ⊢
        rcases h12 with h | ⟨he, h⟩ <;> rcases h23 with g | ⟨ge, g⟩
        · exact Or.inl (by omega)
        · exact Or.inl (by omega)
        · exact Or.inl (by omega)
        · exact Or.inr ⟨by omega, ih h g⟩

lemma ltChars_total_eq : ∀ {l₁ l₂ : List Char},
    ltChars l₁ l₂ = false → ltChars l₂ l₁ = false → l₁ = l₂ := by
  intro l₁
  induction l₁ with
  | nil =>
    intro l₂ h12 h21
    cases l₂ with
    | nil => rfl
    | cons b bs => exact absurd h12 (by simp [ltChars])
  | cons a as ih =>
    intro l₂ h12 h21
    cases l₂ with
    | nil => exact absurd h21 (by simp [ltChars])
    | cons b bs =>
      have hab : a.toNat = b.toNat := by
        by_contra hne
        rcases Nat.lt_or_ge a.toNat b.toNat with h | h
        · have ht : ltChars (a :: as) (b :: bs) = true := ltChars_cons_iff.mpr (Or.inl h)
          rw [h12] at ht; exact Bool.noConfusion ht
        · have hlt : b.toNat < a.toNat := by omega
          have ht : ltChars (b :: bs) (a :: as) = true := ltChars_cons_iff.mpr (Or.inl hlt)
          rw [h21] at ht; exact Bool.noConfusion ht
      have htail : ltChars as bs = false := by
        cases hx : ltChars as bs with
        | false => rfl
        | true =>
          have ht : ltChars (a :: as) (b :: bs) = true :=
            ltChars_cons_iff.mpr (Or.inr ⟨hab, hx⟩)
          rw [h12] at ht; exact Bool.noConfusion ht
      have htail2 : ltChars bs as = false := by
        cases hx : ltChars bs as with
        | false => rfl
        | true =>
          have ht : ltChars (b :: bs) (a :: as) = true :=
            ltChars_cons_iff.mpr (Or.inr ⟨hab.symm, hx⟩)
          rw [h21] at ht; exact Bool.noConfusion ht
      have hch : a = b := Char.ext (UInt32.ext hab)
      subst hch
      exact congrArg (a :: ·) (ih htail htail2)

lemma ltChars_asymm {l₁ l₂ : List Char} (h : ltChars l₁ l₂ = true) :
    ltChars l₂ l₁ = false := by
  cases hb : ltChars l₂ l₁ with
  | false => rfl
  | true =>
    have ht := ltChars_trans h hb
    rw [ltChars_irrefl] at ht
    exact Bool.noConfusion ht

lemma strLt_irrefl (s : String) : strLt s s = false :=
  ltChars_irrefl s.data

lemma strLt_trans {a b c : String} (h1 : strLt a b = true) (h2 : strLt b c = true) :
    strLt a c = true :=
  ltChars_trans h1 h2

lemma strLt_total_eq {a b : String} (h1 : strLt a b = false) (h2 : strLt b a = false) :
    a = b := by
  cases a with
  | mk la =>
    cases b with
    | mk lb => exact congrArg String.mk (ltChars_total_eq h1 h2)

lemma strLt_empty_of_ne {s : String} (h : s ≠ "") : strLt "" s = true := by
  cases s with
  | mk l =>
    cases l with
    | nil => exact absurd rfl h
    | cons c cs => rfl

/-! ### The `MAX(date)` aggregate -/

lemma maxChain_not_lt_self : ∀ (ds : List String) (d : String),
    strLt (maxChain d ds) d = false := by
  intro ds
  induction ds with
  | nil => intro d; exact strLt_irrefl d
  | cons e es ih =>
    intro d
    show strLt (maxChain (pyMax d e) es) d = false
    by_cases hde : strLt d e = true
    · have hpm : pyMax d e = e := by simp [pyMax, hde]
      have hie := ih (pyMax d e)
      rw [hpm] at hie
      cases hmx : strLt (maxChain (pyMax d e) es) d with
      | false => rfl
      | true =>
        have h2 := strLt_trans hmx hde
        rw [hpm] at h2
        rw [hie] at h2
        exact Bool.noConfusion h2
    · have hpm : pyMax d e = d := by simp [pyMax, hde]
      rw [hpm]
      exact ih d

lemma maxChain_not_lt_mem : ∀ (ds : List String) (d x : String), x ∈ ds →
    strLt (maxChain d ds) x = false := by
  intro ds
  induction ds with
  | nil => intro d x hx; cases hx
  | cons e es ih =>
    intro d x hx
    rcases List.mem_cons.mp hx with rfl | hx'
    · show strLt (maxChain (pyMax d x) es) x = false
      by_cases hde : strLt d x = true
      · have hpm : pyMax d x = x := by simp [pyMax, hde]
        have hms := maxChain_not_lt_self es (pyMax d x)
        rw [hpm] at hms
        rw [hpm]
        exact hms
      · have hf : strLt d x = false := by
          cases h : strLt d x with
          | false => rfl
          | true => exact absurd h hde
        have hpm : pyMax d x = d := by simp [pyMax, hf]
        rw [hpm]
        have hmd := maxChain_not_lt_self es d
        cases hmx : strLt (maxChain d es) x with
        | false => rfl
        | true =>
          cases hcmp : strLt x d with
          | true =>
            have h2 := strLt_trans hmx hcmp
            rw [hmd] at h2
            exact Bool.noConfusion h2
          | false =>
            have hxd : x = d := strLt_total_eq hcmp hf
            rw [hxd] at hmx
            rw [hmd] at hmx
            exact Bool.noConfusion hmx
    · exact ih (pyMax d e) x hx'

lemma maxChain_mem : ∀ (ds : List String) (d : String),
    maxChain d ds = d ∨ maxChain d ds ∈ ds := by
  intro ds
  induction ds with
  | nil => intro d; exact Or.inl rfl
  | cons e es ih =>
    intro d
    rcases ih (pyMax d e) with h | h
    · by_cases hde : strLt d e = true
      · right
        have hme : maxChain d (e :: es) = e := by
          show maxChain (pyMax d e) es = e
          rw [h]
          simp [pyMax, hde]
        rw [hme]
        exact List.mem_cons_self e es
      · left
        show maxChain (pyMax d e) es = d
        rw [h]
        simp [pyMax, hde]
    · right
      exact List.mem_cons_of_mem e h

lemma latest_some_not_lt {db : List RateRecord} {x : String}
    (hx : x ∈ db.map (fun r => r.date)) (hne : x ≠ "") :
    ∃ m, get_latest_date_from_db db = some m ∧ strLt m x = false := by
  cases hdb : db.map (fun r => r.date) with
  | nil => rw [hdb] at hx; cases hx
  | cons d ds =>
    rw [hdb] at hx
    have hnl : strLt (maxChain d ds) x = false := by
      rcases List.mem_cons.mp hx with rfl | hx'
      · exact maxChain_not_lt_self ds x
      · exact maxChain_not_lt_mem ds d x hx'
    have hmne : (maxChain d ds == "") = false := by
      cases hq : maxChain d ds == "" with
      | false => rfl
      | true =>
        have hm0 : maxChain d ds = "" := by simpa using hq
        have hlt := strLt_empty_of_ne hne
        rw [← hm0, hnl] at hlt
        exact Bool.noConfusion hlt
    refine ⟨maxChain d ds, ?_, hnl⟩
    simp [get_latest_date_from_db, hdb, hmne]

lemma latest_eq_some_mem {db : List RateRecord} {wd : String}
    (h : get_latest_date_from_db db = some wd) :
    wd ∈ db.map (fun r => r.date) ∧ wd ≠ "" := by
  cases hdb : db.map (fun r => r.date) with
  | nil => rw [get_latest_date_from_db, hdb] at h; cases h
  | cons d ds =>
    rw [get_latest_date_from_db, hdb] at h
    by_cases hq : (maxChain d ds == "") = true
    · simp [hq] at h
    · have hq' : (maxChain d ds == "") = false := by
        cases hz : maxChain d ds == "" with
        | false => rfl
        | true => exact absurd hz hq
      simp only [hq', if_neg] at h
      have hm : maxChain d ds = wd := by simpa using h
      constructor
      · rw [← hm]
        rcases maxChain_mem ds d with h1 | h1
        · rw [h1]; exact List.mem_cons_self d ds
        · exact List.mem_cons_of_mem d h1
      · intro h0
        rw [hm, h0] at hq'
        simp at hq'

/-! ### The row loop -/

lemma foldl_stepRow_kept (w : Option String) (rows : List Row) :
    ∀ st, (rows.foldl (stepRow w) st).kept =
      st.kept ++ (rows.filterMap parse_row).filter (keepRecord w) := by
  induction rows with
  | nil => intro st; simp
  | cons row rest ih =>
    intro st
    rw [List.foldl_cons, ih]
    cases h : parse_row row with
    | none => simp [stepRow, h]
    | some rec =>
      by_cases hk : keepRecord w rec = true <;>
        simp [stepRow, h, hk, List.filter_cons]

lemma processRows_kept (w : Option String) (rows : List Row) :
    (processRows w rows).kept = (rows.filterMap parse_row).filter (keepRecord w) := by
  simpa [processRows] using
    foldl_stepRow_kept w rows { processed := 0, skipped := 0, kept := [] }

lemma foldl_stepRow_skipped (w : Option String) (rows : List Row) :
    ∀ st, (rows.foldl (stepRow w) st).skipped =
      st.skipped + rows.countP (fun row => (parse_row row).isNone) := by
  induction rows with
  | nil => intro st; simp
  | cons row rest ih =>
    intro st
    rw [List.foldl_cons, ih]
    cases h : parse_row row with
    | none =>
      simp only [stepRow, h, List.countP_cons, Option.isNone_none, if_pos]
      omega
    | some rec =>
      by_cases hk : keepRecord w rec = true <;>
        simp [stepRow, h, hk, List.countP_cons]

lemma processRows_skipped (w : Option String) (rows : List Row) :
    (processRows w rows).skipped = rows.countP (fun row => (parse_row row).isNone) := by
  simpa [processRows] using
    foldl_stepRow_skipped w rows { processed := 0, skipped := 0, kept := [] }

/-! ### The insert loop -/

lemma insertBatch_extends : ∀ (recs : List RateRecord) (db : List RateRecord),
    ∃ ext, insertBatch db recs = db ++ ext := by
  intro recs
  induction recs with
  | nil => intro db; exact ⟨[], by simp [insertBatch]⟩
  | cons r rs ih =>
    intro db
    show ∃ ext, insertBatch (insertOrIgnore db r) rs = db ++ ext
    by_cases h : hasDate db r.date = true
    · have : insertOrIgnore db r = db := by simp [insertOrIgnore, h]
      rw [this]
      exact ih db
    · have hni : insertOrIgnore db r = db ++ [r] := by simp [insertOrIgnore, h]
      rw [hni]
      rcases ih (db ++ [r]) with ⟨ext, hext⟩
      exact ⟨[r] ++ ext, by rw [hext, List.append_assoc]⟩

lemma hasDate_append_left {db ext : List RateRecord} {d : String}
    (h : hasDate db d = true) : hasDate (db ++ ext) d = true := by
  simp only [hasDate, List.any_append]
  simp [hasDate] at h
  simp [h]

lemma hasDate_insertBatch_of_mem : ∀ (recs : List RateRecord) (db : List RateRecord)
    (r : RateRecord), r ∈ recs → hasDate (insertBatch db recs) r.date = true := by
  intro recs
  induction recs with
  | nil => intro db r hr; cases hr
  | cons a as ih =>
    intro db r hr
    rcases List.mem_cons.mp hr with rfl | hr'
    · show hasDate (insertBatch (insertOrIgnore db r) as) r.date = true
      have hbase : hasDate (insertOrIgnore db r) r.date = true := by
        by_cases h : hasDate db r.date = true
        · simp [insertOrIgnore, h]
        · have hni : insertOrIgnore db r = db ++ [r] := by simp [insertOrIgnore, h]
          rw [hni]
          simp [hasDate, List.any_append]
      rcases insertBatch_extends as (insertOrIgnore db r) with ⟨ext, hext⟩
      rw [hext]
      exact hasDate_append_left hbase
    · exact ih (insertOrIgnore db a) r hr'

lemma hasDate_iff_mem_dates {db : List RateRecord} {d : String} :
    hasDate db d = true ↔ d ∈ db.map (fun r => r.date) := by
  constructor
  · intro h
    rcases List.any_eq_true.mp h with ⟨r, hr, he⟩
    exact List.mem_map.mpr ⟨r, hr, by simpa using he⟩
  · intro h
    rcases List.mem_map.mp h with ⟨r, hr, he⟩
    exact List.any_eq_true.mpr ⟨r, hr, by simp [he]⟩

/-! ### Shape of parsed records -/

lemma fmtYMD_ne_empty (t : Nat × Nat × Nat) : fmtYMD t ≠ "" := by
  rcases t with ⟨y, m, d⟩
  intro h0
  have hdata := congrArg String.data h0
  simp only [fmtYMD] at hdata
  have h2 := (List.append_eq_nil.mp hdata).2
  exact List.noConfusion h2

lemma parse_date_shape {s fd : String} (h : parse_date s = some fd) :
    ∃ t, fd = fmtYMD t := by
  unfold parse_date at h
  cases h1 : strptimeYMD s with
  | some t => rw [h1] at h; exact ⟨t, (Option.some.inj h).symm⟩
  | none =>
    rw [h1] at h
    cases h2 : strptimeMDY s with
    | some t => rw [h2] at h; exact ⟨t, (Option.some.inj h).symm⟩
    | none => rw [h2] at h; exact Option.noConfusion h

lemma parse_date_ne_empty {s fd : String} (h : parse_date s = some fd) : fd ≠ "" := by
  rcases parse_date_shape h with ⟨t, rfl⟩
  exact fmtYMD_ne_empty t

lemma parse_row_of_valid_date (row : Row) (dv0 fd : String)
    (hd : dictGet (normRow row) "date" = some (some dv0))
    (hp : parse_date (pyStrip dv0) = some fd) :
    parse_row row = some { date := fd
                           pmms30 := rateConv (resolved30 row)
                           pmms15 := rateConv (resolved15 row) } := by
  have hz : parse_date "" = none := rfl
  have hne : (pyStrip dv0 == "") = false := by
    cases hq : pyStrip dv0 == "" with
    | false => rfl
    | true =>
      have h0 : pyStrip dv0 = "" := by simpa using hq
      rw [h0, hz] at hp
      exact Option.noConfusion hp
  simp only [parse_row, parse_row_body, hd, hne, hp, resolved30, resolved15,
    Bool.false_eq_true, if_false]

lemma parse_row_some_date {row : Row} {rec : RateRecord} (h : parse_row row = some rec) :
    (∃ t, rec.date = fmtYMD t) ∧ rec.date ≠ "" := by
  unfold parse_row at h
  cases hb : parse_row_body row with
  | error e => rw [hb] at h; exact Option.noConfusion h
  | ok v =>
    rw [hb] at h
    subst h
    simp only [parse_row_body] at hb
    split at hb
    · exact Option.noConfusion (Except.ok.inj hb)
    · exact Except.noConfusion hb
    · split at hb
      · exact Option.noConfusion (Except.ok.inj hb)
      · split at hb
        · exact Option.noConfusion (Except.ok.inj hb)
        · rename_i dv0 he fd hpd
          have hv := Option.some.inj (Except.ok.inj hb)
          have hdate : rec.date = fd := by rw [← hv]
          rw [hdate]
          exact ⟨parse_date_shape hpd, parse_date_ne_empty hpd⟩

/-! ### Claim theorems -/

/-- C1: a successfully parsed record is added to the kept-records batch iff
the watermark is none or the record's canonical date string is strictly
greater (lexicographically) than the watermark; an equal date is
excluded. -/
theorem kept_iff_newer_than_watermark (w : Option String) (rows : List Row) (r : RateRecord)
    (hr : r ∈ rows.filterMap parse_row) :
    r ∈ (processRows w rows).kept ↔ (w = none ∨ ∃ wd, w = some wd ∧ strLt wd r.date = true) := by
  rw [processRows_kept, List.mem_filter]
  constructor
  · rintro ⟨-, hk⟩
    cases w with
    | none => exact Or.inl rfl
    | some wd => exact Or.inr ⟨wd, rfl, hk⟩
  · intro h
    refine ⟨hr, ?_⟩
    rcases h with h | ⟨wd, hw, hlt⟩
    · rw [h]; rfl
    · rw [hw]; exact hlt

def rowC1 : Row := [("date", some "2024-02-01"), ("pmms30", some "7.0"), ("pmms15", some "6.0")]

def recC1 : RateRecord := { date := "2024-02-01", pmms30 := some (70, -1), pmms15 := some (60, -1) }

theorem kept_iff_newer_witness : recC1 ∈ (processRows (some "2024-01-01") [rowC1]).kept :=
  (kept_iff_newer_than_watermark (some "2024-01-01") [rowC1] recC1 (by decide)).mpr
    (Or.inr ⟨"2024-01-01", rfl, by decide⟩)

/-- C4: for a non-blank date value the parser tries ISO `YYYY-MM-DD` first,
then US `M/D/YYYY`; the first successful format wins, both failing rejects,
and the accepted date is reformatted to canonical `YYYY-MM-DD`, so
`"2024-03-01"` and `"3/1/2024"` both yield `"2024-03-01"`. -/
theorem date_dual_format (s : String) :
    (∀ t, strptimeYMD s = some t → parse_date s = some (fmtYMD t)) ∧
    (strptimeYMD s = none → parse_date s = (strptimeMDY s).map fmtYMD) ∧
    parse_date "2024-03-01" = some "2024-03-01" ∧
    parse_date "3/1/2024" = some "2024-03-01" := by
  refine ⟨?_, ?_, by decide, by decide⟩
  · intro t h
    simp [parse_date, h]
  · intro h
    cases h2 : strptimeMDY s <;> simp [parse_date, h, h2]

theorem date_dual_format_witness :
    parse_date "3/1/2024" = (strptimeMDY "3/1/2024").map fmtYMD :=
  (date_dual_format "3/1/2024").2.1 (by decide)

/-- C5: `parse_row` is total at its public interface: whatever the body does
— return a record, signal a skip, or raise — the wrapper yields `some`
record or `none`, and a raised exception becomes `none` (shown concretely
for a `None` date value, which raises `AttributeError` in the body). -/
theorem parser_total_no_escape :
    (∀ row : Row,
      (∃ e, parse_row_body row = Except.error e ∧ parse_row row = none) ∨
      (∃ v, parse_row_body row = Except.ok v ∧ parse_row row = v)) ∧
    parse_row_body [("date", (none : Option String))] = Except.error PyExc.attrError ∧
    parse_row [("date", (none : Option String))] = none := by
  refine ⟨?_, rfl, rfl⟩
  intro row
  cases hb : parse_row_body row with
  | error e => exact Or.inl ⟨e, rfl, by simp [parse_row, hb]⟩
  | ok v => exact Or.inr ⟨v, rfl, by simp [parse_row, hb]⟩

/-- C6: for a row with a valid date, a resolved rate value that fails float
conversion only nulls that individual field — the row is still returned as a
record; this holds independently for the 30-year and 15-year fields. -/
theorem bad_rate_field_nulled (row : Row) (dv0 fd s30 s15 : String)
    (hd : dictGet (normRow row) "date" = some (some dv0))
    (hp : parse_date (pyStrip dv0) = some fd) :
    (resolved30 row = some s30 → pyFloat s30 = none →
       parse_row row = some { date := fd, pmms30 := none, pmms15 := rateConv (resolved15 row) }) ∧
    (resolved15 row = some s15 → pyFloat s15 = none →
       parse_row row = some { date := fd, pmms30 := rateConv (resolved30 row), pmms15 := none }) := by
  have h := parse_row_of_valid_date row dv0 fd hd hp
  constructor
  · intro h30 hf
    rw [h, h30]
    simp [rateConv, hf]
  · intro h15 hf
    rw [h, h15]
    simp [rateConv, hf]

def rowC6 : Row := [("date", some "2024-01-08"), ("pmms30", some "n/a"), ("pmms15", some "6.2")]

theorem bad_rate_field_witness :
    parse_row rowC6 = some { date := "2024-01-08", pmms30 := none, pmms15 := some (62, -1) } := by
  have h := (bad_rate_field_nulled rowC6 "2024-01-08" "2024-01-08" "n/a" ""
    (by decide) (by decide)).1 (by decide) (by decide)
  rw [h]
  decide

/-- C7: for a row with a valid date, the 30-year rate is resolved from
`pmms30` with fallback `30-yr frm` and the 15-year rate from `pmms15` with
fallback `15-yr frm`, the first non-empty (truthy) source winning, and raw
column names are matched case-insensitively after trimming (the dict lookup
uses `k.strip().lower()`-normalised keys). -/
theorem rate_fallback_resolution (row : Row) (dv0 fd : String)
    (hd : dictGet (normRow row) "date" = some (some dv0))
    (hp : parse_date (pyStrip dv0) = some fd) :
    parse_row row = some { date := fd
                           pmms30 := rateConv (pyOr (getD (normRow row) "pmms30")
                                                    (getD (normRow row) "30-yr frm"))
                           pmms15 := rateConv (pyOr (getD (normRow row) "pmms15")
                                                    (getD (normRow row) "15-yr frm")) } ∧
    (pyTruthy (getD (normRow row) "pmms30") = true →
       resolved30 row = getD (normRow row) "pmms30") ∧
    (pyTruthy (getD (normRow row) "pmms30") = false →
       resolved30 row = getD (normRow row) "30-yr frm") ∧
    (pyTruthy (getD (normRow row) "pmms15") = true →
       resolved15 row = getD (normRow row) "pmms15") ∧
    (pyTruthy (getD (normRow row) "pmms15") = false →
       resolved15 row = getD (normRow row) "15-yr frm") ∧
    (∀ (pre : Row) (k : String) (v : Option String) (tgt : String), pyNormKey k = tgt →
       dictGet (normRow (pre ++ [(k, v)])) tgt = some v) := by
  refine ⟨?_, ?_, ?_, ?_, ?_, ?_⟩
  · have h := parse_row_of_valid_date row dv0 fd hd hp
    rw [h]
    rfl
  · intro ht; simp [resolved30, pyOr, ht]
  · intro ht; simp [resolved30, pyOr, ht]
  · intro ht; simp [resolved15, pyOr, ht]
  · intro ht; simp [resolved15, pyOr, ht]
  · intro pre k v tgt hk
    simp [normRow, dictGet, List.map_append, List.reverse_append, hk]

def rowC7 : Row := [("Date ", some "2024-03-01"), (" PMMS30 ", some ""), ("30-Yr FRM", some "6.5")]

theorem rate_fallback_witness :
    parse_row rowC7 = some { date := "2024-03-01", pmms30 := some (65, -1), pmms15 := none } := by
  have h := (rate_fallback_resolution rowC7 "2024-03-01" "2024-03-01" (by decide) (by decide)).1
  rw [h]
  decide

/-- C8: a row whose date column is missing, or whose date value is blank
after stripping, is rejected with a skip signal; in the stream loop the
rejection only increments the skipped counter, leaves the kept batch
unchanged, and the run still completes normally. -/
theorem missing_date_skipped (row : Row)
    (h : dictGet (normRow row) "date" = none ∨
         ∃ dv0, dictGet (normRow row) "date" = some (some dv0) ∧ pyStrip dv0 = "") :
    parse_row row = none ∧
    (∀ (w : Option String) (pre post : List Row),
       (processRows w (pre ++ row :: post)).kept = (processRows w (pre ++ post)).kept ∧
       (processRows w (pre ++ row :: post)).skipped
         = (processRows w (pre ++ post)).skipped + 1) ∧
    (∀ (db : List RateRecord) (rows : List Row), row ∈ rows →
       ∃ d, (stream_and_ingest (goodEnv rows) db).result = Except.ok d) := by
  have hnone : parse_row row = none := by
    rcases h with h1 | ⟨dv0, h1, h2⟩
    · simp [parse_row, parse_row_body, h1]
    · simp [parse_row, parse_row_body, h1, h2]
  refine ⟨hnone, ?_, ?_⟩
  · intro w pre post
    constructor
    · rw [processRows_kept, processRows_kept]
      simp [List.filterMap_append, List.filterMap_cons, hnone]
    · rw [processRows_skipped, processRows_skipped]
      simp [List.countP_append, List.countP_cons, hnone]
      omega
  · intro db rows hmem
    simp only [stream_and_ingest, goodEnv, execFails, Bool.not_true, Bool.false_eq_true,
      if_false, Bool.or_false]
    by_cases hk : (processRows (get_latest_date_from_db db) rows).kept = []
    · exact ⟨db, by simp [hk]⟩
    · exact ⟨insertBatch db (processRows (get_latest_date_from_db db) rows).kept,
        by simp [hk]⟩

def rowC8 : Row := [("note", some "x")]

theorem missing_date_witness :
    parse_row rowC8 = none ∧
    (processRows none ([] ++ rowC8 :: [])).skipped = (processRows none ([] ++ [])).skipped + 1 := by
  have h := missing_date_skipped rowC8 (Or.inl (by decide))
  exact ⟨h.1, (h.2.1 none [] []).2⟩

/-- C3: the batch insert is all-or-nothing: on an execute or commit failure
the store is unchanged and the error surfaces; otherwise the whole batch is
committed, every kept record's date key is present afterwards, and a record
whose date key is already present is silently skipped, never an error. -/
theorem batch_insert_atomic (db : List RateRecord) (rows : List Row)
    (fa : Option Nat) (cOk : Bool) :
    ((execFails fa (processRows (get_latest_date_from_db db) rows).kept.length || !cOk) = true →
       (processRows (get_latest_date_from_db db) rows).kept ≠ [] →
       (stream_and_ingest ⟨true, true, true, Except.ok rows, fa, cOk⟩ db).dbAfter = db ∧
       (stream_and_ingest ⟨true, true, true, Except.ok rows, fa, cOk⟩ db).result
         = Except.error PipeErr.insertErr) ∧
    ((execFails fa (processRows (get_latest_date_from_db db) rows).kept.length || !cOk) = false →
       (stream_and_ingest ⟨true, true, true, Except.ok rows, fa, cOk⟩ db).result
         = Except.ok (insertBatch db (processRows (get_latest_date_from_db db) rows).kept) ∧
       (stream_and_ingest ⟨true, true, true, Except.ok rows, fa, cOk⟩ db).dbAfter
         = insertBatch db (processRows (get_latest_date_from_db db) rows).kept ∧
       ∀ r ∈ (processRows (get_latest_date_from_db db) rows).kept,
         hasDate (insertBatch db (processRows (get_latest_date_from_db db) rows).kept) r.date
           = true) ∧
    (∀ r : RateRecord, hasDate db r.date = true → insertOrIgnore db r = db) := by
  refine ⟨?_, ?_, ?_⟩
  · intro hfail hne
    constructor <;> simp [stream_and_ingest, hne, hfail]
  · intro hok
    refine ⟨?_, ?_, ?_⟩
    · by_cases hk : (processRows (get_latest_date_from_db db) rows).kept = []
      · simp [stream_and_ingest, hk, insertBatch]
      · simp [stream_and_ingest, hk, hok]
    · by_cases hk : (processRows (get_latest_date_from_db db) rows).kept = []
      · simp [stream_and_ingest, hk, insertBatch]
      · simp [stream_and_ingest, hk, hok]
    · intro r hr
      exact hasDate_insertBatch_of_mem _ db r hr
  · intro r h
    simp [insertOrIgnore, h]

def rowC3 : Row := [("date", some "2024-04-04"), ("pmms30", some "6.9"), ("pmms15", some "6.1")]

theorem batch_insert_atomic_witness :
    (stream_and_ingest ⟨true, true, true, Except.ok [rowC3], some 0, true⟩ []).dbAfter = ([] : List RateRecord) ∧
    (stream_and_ingest ⟨true, true, true, Except.ok [rowC3], some 0, true⟩ []).result = Except.error PipeErr.insertErr :=
  (batch_insert_atomic [] [rowC3] (some 0) true).1 (by decide) (by decide)

/-- C9 counterexample: `sqlite3.connect` succeeds but the schema creation
inside `get_db_connection` fails, so `get_db_connection` raises after a
connection was opened; `conn` is then not a local of `stream_and_ingest` and
the `finally` block does not close the opened connection — contradicting the
claim that the connection is released on every exit path including schema
creation failure. -/
theorem schema_failure_leaks_connection :
    (stream_and_ingest ⟨true, false, true, Except.ok [], none, true⟩ []).closed = false ∧
    (stream_and_ingest ⟨true, false, true, Except.ok [], none, true⟩ []).result
      = Except.error PipeErr.schema := by
  constructor <;> rfl

/-- C9 (amended): on every exit path reached after `get_db_connection`
returned successfully (both connect and schema creation succeeded) — normal
completion, latest-date failure, fetch/parse-stream failure, or insert
failure — the connection is closed before the pipeline returns or the error
propagates.  (When schema creation fails after a successful connect, the
close is NOT performed; see the counterexample.) -/
theorem connection_closed_after_open (env : Env) (db : List RateRecord)
    (hc : env.connectOk = true) (hs : env.schemaOk = true) :
    (stream_and_ingest env db).closed = true := by
  rcases env with ⟨c, s, lat, f, fa, cm⟩
  simp only at hc hs
  subst hc
  subst hs
  cases lat with
  | false => rfl
  | true =>
    cases f with
    | error e => rfl
    | ok rows =>
      simp only [stream_and_ingest]
      by_cases hk : (processRows (get_latest_date_from_db db) rows).kept = []
      · simp [hk]
      · simp [hk]
        split <;> rfl

theorem connection_closed_witness :
    (stream_and_ingest (goodEnv []) []).closed = true :=
  connection_closed_after_open (goodEnv []) [] rfl rfl

/-! ### Uniqueness of the date key -/

lemma datesNodup_insertOrIgnore {db : List RateRecord} {r : RateRecord}
    (h : datesNodup db) : datesNodup (insertOrIgnore db r) := by
  by_cases hd : hasDate db r.date = true
  · simpa [insertOrIgnore, hd] using h
  · have hni : insertOrIgnore db r = db ++ [r] := by simp [insertOrIgnore, hd]
    rw [hni]
    unfold datesNodup at h ⊢
    rw [List.map_append, List.nodup_append]
    refine ⟨h, List.nodup_singleton _, ?_⟩
    intro x hx hx2
    have hxr : x = r.date := by simpa using hx2
    subst hxr
    have ht : hasDate db r.date = true := hasDate_iff_mem_dates.mpr hx
    rw [ht] at hd
    exact hd rfl

lemma datesNodup_insertBatch : ∀ (recs db : List RateRecord),
    datesNodup db → datesNodup (insertBatch db recs) := by
  intro recs
  induction recs with
  | nil => intro db h; exact h
  | cons a as ih =>
    intro db h
    exact ih (insertOrIgnore db a) (datesNodup_insertOrIgnore h)

lemma find?_eq_none_of_not_hasDate {db : List RateRecord} {d : String}
    (h : hasDate db d = false) :
    db.find? (fun r => r.date == d) = none := by
  rw [List.find?_eq_none]
  intro r hr hp
  have ht : hasDate db d = true := List.any_eq_true.mpr ⟨r, hr, hp⟩
  rw [h] at ht
  exact Bool.noConfusion ht

lemma hasDate_append_singleton {db : List RateRecord} {a : RateRecord} {d : String} :
    hasDate (db ++ [a]) d = (hasDate db d || (a.date == d)) := by
  simp [hasDate, List.any_append]

lemma find?_insertBatch : ∀ (recs db : List RateRecord) (d : String),
    hasDate db d = false →
    (insertBatch db recs).find? (fun r => r.date == d)
      = recs.find? (fun r => r.date == d) := by
  intro recs
  induction recs with
  | nil =>
    intro db d h
    simpa [insertBatch] using find?_eq_none_of_not_hasDate h
  | cons a as ih =>
    intro db d h
    show (insertBatch (insertOrIgnore db a) as).find? _ = _
    by_cases had : (a.date == d) = true
    · have had' : a.date = d := by simpa using had
      have hdbf : hasDate db a.date = false := by rw [had']; exact h
      have hdbf2 : (hasDate db a.date = true) = False := by simp [hdbf]
      have hni : insertOrIgnore db a = db ++ [a] := by simp [insertOrIgnore, hdbf]
      rw [hni]
      rcases insertBatch_extends as (db ++ [a]) with ⟨ext, hext⟩
      rw [hext, List.append_assoc, List.find?_append, List.find?_append,
        find?_eq_none_of_not_hasDate h]
      simp [List.find?, had]
    · have had' : (a.date == d) = false := by
        cases hq : a.date == d with
        | false => rfl
        | true => exact absurd hq had
      have hnext : hasDate (insertOrIgnore db a) d = false := by
        by_cases hx : hasDate db a.date = true
        · simpa [insertOrIgnore, hx] using h
        · have hni : insertOrIgnore db a = db ++ [a] := by simp [insertOrIgnore, hx]
          rw [hni, hasDate_append_singleton, h, had']
          rfl
      rw [ih (insertOrIgnore db a) d hnext]
      simp [List.find?, had']

/-- C10: the store never ends a run with two rows sharing a date: batch
insertion preserves date uniqueness (so does every exit of
`stream_and_ingest`), and when the batch itself contains several records
with the same (not previously stored) date, the record found at that date
afterwards is the first such record in batch order — later occurrences are
ignored. -/
lemma dbAfter_db_or_insert (env : Env) (db : List RateRecord) :
    (stream_and_ingest env db).dbAfter = db ∨
    ∃ recs, (stream_and_ingest env db).dbAfter = insertBatch db recs := by
  unfold stream_and_ingest
  dsimp only
  split
  · exact Or.inl rfl
  · split
    · exact Or.inl rfl
    · split
      · exact Or.inl rfl
      · split
        · exact Or.inl rfl
        · split
          · exact Or.inl rfl
          · split
            · exact Or.inl rfl
            · exact Or.inr ⟨_, rfl⟩

theorem primary_key_first_wins (db recs : List RateRecord) (d : String) :
    (datesNodup db → datesNodup (insertBatch db recs)) ∧
    (hasDate db d = false →
       (insertBatch db recs).find? (fun r => r.date == d)
         = recs.find? (fun r => r.date == d)) ∧
    (∀ env : Env, datesNodup db → datesNodup (stream_and_ingest env db).dbAfter) := by
  refine ⟨datesNodup_insertBatch recs db, find?_insertBatch recs db d, ?_⟩
  intro env h
  rcases dbAfter_db_or_insert env db with he | ⟨recs2, he⟩
  · rw [he]; exact h
  · rw [he]; exact datesNodup_insertBatch recs2 db h

def recC10a : RateRecord := { date := "2024-05-01", pmms30 := some (70, -1), pmms15 := none }

def recC10b : RateRecord := { date := "2024-05-01", pmms30 := some (71, -1), pmms15 := none }

theorem primary_key_witness :
    (insertBatch [] [recC10a, recC10b]).find? (fun r => r.date == "2024-05-01")
      = some recC10a := by
  have h := (primary_key_first_wins [] [recC10a, recC10b] "2024-05-01").2.1 (by decide)
  rw [h]
  decide

/-! ### Idempotence -/

/-- If every date of `db` also occurs in `db1` and every record kept against
`db`'s watermark has its date in `db1`, then the same payload filtered
against `db1`'s watermark keeps nothing. -/
lemma kept_nil_of_covers (db db1 : List RateRecord) (rows : List Row)
    (hsub : ∀ x, x ∈ db.map (fun r => r.date) → x ∈ db1.map (fun r => r.date))
    (hkept : ∀ r ∈ (processRows (get_latest_date_from_db db) rows).kept,
        hasDate db1 r.date = true) :
    (processRows (get_latest_date_from_db db1) rows).kept = [] := by
  rw [processRows_kept, List.filter_eq_nil_iff]
  intro r hr hkeep
  rcases List.mem_filterMap.mp hr with ⟨row, hrow, hparse⟩
  have hrdate := (parse_row_some_date hparse).2
  by_cases hkw : keepRecord (get_latest_date_from_db db) r = true
  · have hrk : r ∈ (processRows (get_latest_date_from_db db) rows).kept := by
      rw [processRows_kept]
      exact List.mem_filter.mpr ⟨hr, hkw⟩
    have hd1 : hasDate db1 r.date = true := hkept r hrk
    have hmem : r.date ∈ db1.map (fun r => r.date) := hasDate_iff_mem_dates.mp hd1
    rcases latest_some_not_lt hmem hrdate with ⟨m, hm, hnl⟩
    rw [hm] at hkeep
    have hkeep2 : strLt m r.date = true := hkeep
    rw [hnl] at hkeep2
    exact Bool.noConfusion hkeep2
  · cases hw : get_latest_date_from_db db with
    | none =>
      rw [hw] at hkw
      exact hkw rfl
    | some wd =>
      rw [hw] at hkw
      have hwf : strLt wd r.date = false := by
        cases hq : strLt wd r.date with
        | false => rfl
        | true => exact absurd (show keepRecord (some wd) r = true from hq) hkw
      rcases latest_eq_some_mem hw with ⟨hwmem, hwne⟩
      have hwmem1 : wd ∈ db1.map (fun r => r.date) := hsub wd hwmem
      rcases latest_some_not_lt hwmem1 hwne with ⟨m, hm, hnl⟩
      rw [hm] at hkeep
      have hkeep2 : strLt m r.date = true := hkeep
      cases hcmp : strLt r.date wd with
      | false =>
        have heq : wd = r.date := strLt_total_eq hwf hcmp
        rw [← heq] at hkeep2
        rw [hnl] at hkeep2
        exact Bool.noConfusion hkeep2
      | true =>
        have hmwd := strLt_trans hkeep2 hcmp
        rw [hnl] at hmwd
        exact Bool.noConfusion hmwd

/-- C2: running the pipeline twice against the same payload keeps zero new
records on the second run and leaves the store exactly as the first run left
it. -/
theorem ingest_idempotent (db : List RateRecord) (rows : List Row) :
    ∃ db1, (stream_and_ingest (goodEnv rows) db).result = Except.ok db1 ∧
      (stream_and_ingest (goodEnv rows) db).dbAfter = db1 ∧
      (processRows (get_latest_date_from_db db1) rows).kept = [] ∧
      stream_and_ingest (goodEnv rows) db1 =
        { result := Except.ok db1, dbAfter := db1, closed := true } := by
  by_cases hk : (processRows (get_latest_date_from_db db) rows).kept = []
  · refine ⟨db, ?_, ?_, ?_, ?_⟩
    · simp [stream_and_ingest, goodEnv, hk]
    · simp [stream_and_ingest, goodEnv, hk]
    · exact hk
    · simp [stream_and_ingest, goodEnv, hk]
  · have hsub : ∀ x, x ∈ db.map (fun r => r.date) →
        x ∈ (insertBatch db (processRows (get_latest_date_from_db db) rows).kept).map
          (fun r => r.date) := by
      intro x hx
      rcases insertBatch_extends (processRows (get_latest_date_from_db db) rows).kept db
        with ⟨ext, hext⟩
      rw [hext, List.map_append]
      exact List.mem_append_left _ hx
    have hkept : ∀ r ∈ (processRows (get_latest_date_from_db db) rows).kept,
        hasDate (insertBatch db (processRows (get_latest_date_from_db db) rows).kept) r.date
          = true := by
      intro r hr
      exact hasDate_insertBatch_of_mem _ db r hr
    have hnil := kept_nil_of_covers db
      (insertBatch db (processRows (get_latest_date_from_db db) rows).kept) rows hsub hkept
    refine ⟨insertBatch db (processRows (get_latest_date_from_db db) rows).kept,
      ?_, ?_, hnil, ?_⟩
    · simp [stream_and_ingest, goodEnv, hk, execFails]
    · simp [stream_and_ingest, goodEnv, hk, execFails]
    · simp [stream_and_ingest, goodEnv, hnil]

end Pmms
